import Mathlib

/-!
Verification development for the text2array vocabulary/encoding engine and
its dataset collaborators.

The vocabulary core (`StringStore`, `Vocab`) is not shipped in this
repository snapshot (only its tests are), so those definitions are modelled
from the specification.  The dataset batching code (`Dataset.batch`,
`StreamDataset.batch`, constructor type checks) is embedded from
`text2array/datasets.py`.
-/

namespace Text2Array

/-- Modelled from the spec: a field value of a sample, as described in the
data model (spec §3): a scalar string, a scalar number, a sequence of
strings (depth 1), or a sequence of sequences of strings (depth 2).  The
integer-leaf variants are the images of the string-leaf variants under
`Vocab.apply_to` (spec §4.4), which replaces every leaf string by its
integer code while preserving the nesting structure. -/
inductive FieldValue where
  | fstr : String → FieldValue
  | fnum : Int → FieldValue
  | fseq : List String → FieldValue
  | fseq2 : List (List String) → FieldValue
  | fix : Nat → FieldValue
  | fixseq : List Nat → FieldValue
  | fixseq2 : List (List Nat) → FieldValue
  deriving DecidableEq, Repr

/-- Modelled from the spec: a sample is an ordered mapping from field name
to field value (spec §3); embedded as an association list so that key order
is part of the value. -/
abbrev Sample : Type := List (String × FieldValue)

/-- Modelled from the spec: the error taxonomy of spec §7 relevant to the
vocabulary core.  Each failure kind is a distinct constructor carrying the
name it must report: `tokenNotFound` is the StringStore-level failure,
`valueNotFound` the Vocab-application-level failure, and
`fieldVocabAbsent` the Vocab-mapping-level failure. -/
inductive LookupError where
  | tokenNotFound : String → LookupError
  | valueNotFound : String → LookupError
  | fieldVocabAbsent : String → LookupError
  deriving DecidableEq, Repr

instance {ε α : Type} [DecidableEq ε] [DecidableEq α] : DecidableEq (Except ε α) :=
  fun a b =>
    match a, b with
    | .error e, .error f =>
      if h : e = f then .isTrue (by rw [h]) else .isFalse (by intro c; cases c; exact h rfl)
    | .error _, .ok _ => .isFalse (by intro c; cases c)
    | .ok _, .error _ => .isFalse (by intro c; cases c)
    | .ok x, .ok y =>
      if h : x = y then .isTrue (by rw [h]) else .isFalse (by intro c; cases c; exact h rfl)

/-- Modelled from the spec: the human-readable message of each failure, with
the wording observed in the repository's tests: the StringStore-level
message states the token was not found in the vocabulary, the application
level message names the offending value, and the mapping-level message
states no vocabulary exists for the field name.  (`\x27` is an ASCII
apostrophe.) -/
def LookupError.message : LookupError → String
  | .tokenNotFound tok => "\x27" ++ tok ++ "\x27 not found in vocabulary"
  | .valueNotFound val => "value \x27" ++ val ++ "\x27 not found in vocab"
  | .fieldVocabAbsent name => "no vocabulary found for field name \x27" ++ name ++ "\x27"

/-- Modelled from the spec: a `StringStore` (spec §3, §4.1) owns an ordered
sequence of tokens (`itos`, index to string) and optionally one designated
unknown index used as fallback for lookup misses. -/
structure StringStore where
  itos : List String
  unkIndex : Option Nat
  deriving DecidableEq, Repr

/-- Position of the first occurrence of a token in a token list (the
`stoi` direction of the store's bidirectional mapping). -/
def lookupIdx (tok : String) : List String → Option Nat
  | [] => none
  | t :: ts => if t = tok then some 0 else (lookupIdx tok ts).map (· + 1)

/-- Modelled from the spec: `size()` of a StringStore (spec §4.1), the
number of tokens including specials. -/
def StringStore.size (st : StringStore) : Nat := st.itos.length

/-- Modelled from the spec: `contains(token)` (spec §4.1), true iff the
token is present in the forward mapping. -/
def StringStore.containsTok (st : StringStore) (tok : String) : Prop := tok ∈ st.itos

instance (st : StringStore) (tok : String) : Decidable (st.containsTok tok) := by
  unfold StringStore.containsTok
  infer_instance

/-- Modelled from the spec: `index(token)` (spec §4.1).  Returns the integer
code for the token; if the token is absent and an unknown fallback is
configured, returns the unknown index; if absent with no fallback, fails
with the token-not-found `LookupError`. -/
def StringStore.index (st : StringStore) (tok : String) : Except LookupError Nat :=
  match lookupIdx tok st.itos with
  | some i => .ok i
  | none =>
    match st.unkIndex with
    | some u => .ok u
    | none => .error (.tokenNotFound tok)

/-- Fixed default unknown-token text (spec §4.2: default enabled with a
fixed default token text, `<unk>` in the tests). -/
def unkTokenText : String := "<unk>"

/-- Fixed default padding-token text (spec §4.2, `<pad>` in the tests). -/
def padTokenText : String := "<pad>"

/-- Modelled from the spec: the per-field configuration of
`Vocab.from_samples` (spec §4.2): `min_count` (default 1), `max_size`
(default unbounded), `unk` (default enabled with the fixed default text)
and `pad` (default enabled with the fixed default text). -/
structure FieldOptions where
  min_count : Nat := 1
  max_size : Option Nat := none
  unk : Option String := some unkTokenText
  pad : Option String := some padTokenText
  deriving DecidableEq, Repr

/-- Corpus frequency of a token in a flat token list. -/
def countTok (toks : List String) (t : String) : Nat :=
  (toks.filter (fun u => u = t)).length

/-- Distinct elements of a list, keeping the first occurrence of each and
skipping any element already seen. -/
def dedupFirstAux (seen : List String) : List String → List String
  | [] => []
  | t :: ts =>
    if t ∈ seen then dedupFirstAux seen ts
    else t :: dedupFirstAux (t :: seen) ts

/-- Distinct elements of a list, keeping the first occurrence of each
(first-seen order, the deterministic tie-breaking rule of spec §9). -/
def dedupFirst (l : List String) : List String := dedupFirstAux [] l

/-- Modelled from the spec: step 4 of `from_samples` (spec §4.2), the
distinct corpus tokens surviving `min_count` filtering, in first-seen
order. -/
def keptTokens (o : FieldOptions) (toks : List String) : List String :=
  (dedupFirst toks).filter (fun t => o.min_count ≤ countTok toks t)

/-- The descending-frequency order on tokens of a corpus: `a` precedes `b`
when `a`'s corpus frequency is at least `b`'s. -/
def byFreq (toks : List String) : String → String → Prop :=
  fun a b => countTok toks b ≤ countTok toks a

instance (toks : List String) : DecidableRel (byFreq toks) :=
  fun _ _ => Nat.decLe _ _

instance (toks : List String) : IsTotal String (byFreq toks) :=
  ⟨fun a b => Nat.le_total (countTok toks b) (countTok toks a)⟩

instance (toks : List String) : IsTrans String (byFreq toks) :=
  ⟨fun _ _ _ h1 h2 => Nat.le_trans h2 h1⟩

/-- Modelled from the spec: steps 4 of `from_samples` (spec §4.2): sort the
surviving tokens by descending frequency (stable, hence ties break in
first-seen order) and retain at most `max_size` of them. -/
def sizedTokens (o : FieldOptions) (toks : List String) : List String :=
  let sorted := List.insertionSort (byFreq toks) (keptTokens o toks)
  match o.max_size with
  | none => sorted
  | some k => sorted.take k

/-- Modelled from the spec: step 5 of `from_samples` (spec §4.2): the
special tokens prepended to a field's sequence — the padding token only
for depth ≥ 1 fields with `pad` enabled, then the unknown token if `unk`
is enabled. -/
def specialTokens (o : FieldOptions) (depth : Nat) : List String :=
  (if 1 ≤ depth then o.pad.toList else []) ++ o.unk.toList

/-- Modelled from the spec: step 5 of `from_samples` (spec §4.2): build the
field's StringStore from specials followed by the frequency-ordered
tokens, marking the unknown index (if any) as the fallback index. -/
def buildStore (o : FieldOptions) (depth : Nat) (toks : List String) : StringStore :=
  { itos := specialTokens o depth ++ sizedTokens o toks
    unkIndex :=
      match o.unk with
      | none => none
      | some _ => some (if 1 ≤ depth ∧ o.pad.isSome then 1 else 0) }

/-- Modelled from the spec: a `Vocab` (spec §3) owns, for each field name
present in the scanned corpus, exactly one StringStore, keyed by field
name, in first-discovery order; embedded as an association list. -/
structure Vocab where
  fields : List (String × StringStore)
  deriving DecidableEq, Repr

/-- The field names of a Vocab, in order. -/
def Vocab.keys (v : Vocab) : List String := v.fields.map Prod.fst

/-- Modelled from the spec: optional lookup without raising (spec §4.3's
mapping protocol). -/
def Vocab.lookup (v : Vocab) (name : String) : Option StringStore :=
  (v.fields.find? (fun e => e.1 = name)).map Prod.snd

/-- Modelled from the spec: Vocab lookup by field name (spec §4.3): lookup
of an absent field name fails with a LookupError stating no vocabulary
exists for that field name. -/
def Vocab.getStore (v : Vocab) (name : String) : Except LookupError StringStore :=
  match v.fields.find? (fun e => e.1 = name) with
  | some e => .ok e.2
  | none => .error (.fieldVocabAbsent name)

/-- Modelled from the spec: structure classification and flattening of one
field value during the corpus scan (spec §4.2 steps 2 and 3): a scalar
string is depth 0 and contributes itself; a sequence of strings is depth 1
and contributes its elements; a sequence of sequences is depth 2 and
contributes every innermost string; non-string values are not eligible and
yield `none`. -/
def eligibleLeaves : FieldValue → Option (Nat × List String)
  | .fstr s => some (0, [s])
  | .fseq ss => some (1, ss)
  | .fseq2 sss => some (2, sss.flatten)
  | _ => none

/-- Modelled from the spec: all leaf tokens collected for one field name
over the whole corpus scan, in corpus order (spec §4.2 step 3). -/
def collectedTokens (samples : List Sample) (name : String) : List String :=
  (samples.map (fun s =>
    (s.map (fun nv =>
      if nv.1 = name then
        match eligibleLeaves nv.2 with
        | some p => p.2
        | none => []
      else [])).flatten)).flatten

/-- Modelled from the spec: the field names encountered with an eligible
(string-structured) value, in first-discovery order (spec §4.2 step 7). -/
def fieldOrder (samples : List Sample) : List String :=
  dedupFirst ((samples.map (fun s =>
    (s.filter (fun nv => (eligibleLeaves nv.2).isSome)).map Prod.fst)).flatten)

/-- Modelled from the spec: the structural depth of a field, taken from the
first eligible value shape encountered for it (spec §4.2 step 2 and §9's
open question: depth is inferred from occurrences, assumed consistent). -/
def fieldDepth (samples : List Sample) (name : String) : Nat :=
  match ((samples.map (fun s =>
      s.filter (fun nv => nv.1 = name && (eligibleLeaves nv.2).isSome))).flatten).head? with
  | some nv =>
    match eligibleLeaves nv.2 with
    | some p => p.1
    | none => 0
  | none => 0

/-- Modelled from the spec: `Vocab.from_samples` (spec §4.2): scan the
corpus, and for each field name with at least one collected token build a
StringStore from its configuration, depth and collected tokens; fields
with zero collected tokens are omitted entirely (step 6). -/
def Vocab.from_samples (opts : String → FieldOptions) (samples : List Sample) : Vocab :=
  ⟨((fieldOrder samples).filter (fun n => !(collectedTokens samples n).isEmpty)).map
    (fun n => (n, buildStore (opts n) (fieldDepth samples n) (collectedTokens samples n)))⟩

/-- Map a fallible function over a list, failing at the first failure (the
effect of a lookup raising during lazy consumption of one sample). -/
def mapExcept (f : α → Except ε β) : List α → Except ε (List β)
  | [] => .ok []
  | x :: xs =>
    match f x with
    | .error e => .error e
    | .ok y =>
      match mapExcept f xs with
      | .error e => .error e
      | .ok ys => .ok (y :: ys)

/-- Modelled from the spec: the StringStore `index` lookup as used by
`apply_to` (spec §4.4): a token-not-found failure is caught and re-signaled
as the value-not-found LookupError naming the offending value. -/
def indexLeaf (st : StringStore) (tok : String) : Except LookupError Nat :=
  match st.index tok with
  | .ok i => .ok i
  | .error _ => .error (.valueNotFound tok)

/-- Modelled from the spec: the recursive rewrite of one field value under a
field's StringStore (spec §4.4): every leaf string is replaced by its
integer code with the nesting structure preserved exactly; values with no
leaf strings pass through unchanged. -/
def applyValue (st : StringStore) : FieldValue → Except LookupError FieldValue
  | .fstr s =>
    match indexLeaf st s with
    | .error e => .error e
    | .ok i => .ok (.fix i)
  | .fseq ss =>
    match mapExcept (indexLeaf st) ss with
    | .error e => .error e
    | .ok is => .ok (.fixseq is)
  | .fseq2 sss =>
    match mapExcept (mapExcept (indexLeaf st)) sss with
    | .error e => .error e
    | .ok iss => .ok (.fixseq2 iss)
  | v => .ok v

/-- Modelled from the spec: rewrite of one sample (spec §4.4): every field
with an entry in the Vocab has its value rewritten under that field's
store; fields absent from the Vocab pass through unchanged; the field set
and key order are preserved. -/
def Vocab.apply_to_sample (v : Vocab) (s : Sample) : Except LookupError Sample :=
  mapExcept (fun nv =>
    match v.lookup nv.1 with
    | none => .ok nv
    | some st =>
      match applyValue st nv.2 with
      | .error e => .error e
      | .ok w => .ok (nv.1, w)) s

/-- Modelled from the spec: `Vocab.apply_to` (spec §4.4): one output per
input sample; each element is computed independently, and a failure
surfaces at the consumption of the specific offending sample, embedded
here as that sample's `Except` result. -/
def Vocab.apply_to (v : Vocab) (samples : List Sample) : List (Except LookupError Sample) :=
  samples.map v.apply_to_sample

/-- Modelled from the spec: StringStore equality (spec §4.1): two stores are
equal iff their ordered token sequences are identical. -/
def StringStore.storeEq (s t : StringStore) : Prop := s.itos = t.itos

/-- Modelled from the spec: Vocab equality (spec §3): compares the full
field-to-StringStore mapping — the field names in order, each with its
store's ordered token sequence. -/
def Vocab.vocabEq (v w : Vocab) : Prop :=
  v.fields.map (fun e => (e.1, e.2.itos)) = w.fields.map (fun e => (e.1, e.2.itos))

instance (s t : StringStore) : Decidable (s.storeEq t) := by
  unfold StringStore.storeEq
  infer_instance

instance (v w : Vocab) : Decidable (v.vocabEq w) := by
  unfold Vocab.vocabEq
  infer_instance

/-- A dynamically-typed constructor argument, as `datasets.py` sees it: a
sequence (indexable, hence also iterable), a non-sequence iterable (e.g. a
generator), or a non-iterable object. -/
inductive PyObj (α : Type) where
  | sequenceOf : List α → PyObj α
  | iterableOf : List α → PyObj α
  | otherObj : PyObj α
  deriving DecidableEq, Repr

/-- `isinstance(x, collections.abc.Sequence)`. -/
def PyObj.isSequence : PyObj α → Bool
  | .sequenceOf _ => true
  | _ => false

/-- `isinstance(x, collections.abc.Iterable)`. -/
def PyObj.isIterable : PyObj α → Bool
  | .sequenceOf _ => true
  | .iterableOf _ => true
  | .otherObj => false

/-- `Dataset.__init__` (datasets.py lines 39-43): raises TypeError unless
the argument is a sequence; otherwise stores the samples. -/
def Dataset.init (samples : PyObj α) : Except String (List α) :=
  match samples with
  | .sequenceOf l => .ok l
  | _ => .error "\x22samples\x22 is not a sequence"

/-- `StreamDataset.__init__` (datasets.py lines 106-110): raises TypeError
unless the argument is iterable; otherwise stores the stream. -/
def StreamDataset.init (stream : PyObj α) : Except String (List α) :=
  match stream with
  | .sequenceOf l => .ok l
  | .iterableOf l => .ok l
  | .otherObj => .error "\x22stream\x22 is not iterable"

/-- Successive groups of up to `k` samples taken from the front of the
list until it is exhausted, never yielding an empty group.  This is the
common yield pattern of both batching loops of `datasets.py`: the slice
loop of `Dataset.batch` (slices `[begin:begin+k]` for `begin = 0, k, 2k,
…`) and the iterator-filling loop of `StreamDataset.batch` (fill a group
of up to `k` from the iterator; yield it when non-empty). -/
def batchChunks (k : Nat) (l : List α) : List (List α) :=
  if (l.take k).isEmpty then []
  else l.take k :: batchChunks k (l.drop k)
termination_by l.length
decreasing_by
  rename_i h
  simp only [List.isEmpty_eq_true, List.take_eq_nil_iff, not_or] at h
  rcases h with ⟨hk, hl⟩
  simp only [List.length_drop]
  exact Nat.sub_lt (List.length_pos.mpr hl) (Nat.pos_of_ne_zero hk)

/-- `Dataset.batch` (datasets.py lines 67-81): on a non-positive batch size
the generator raises ValueError before yielding any batch; otherwise it
yields the successive slices of `batch_size` samples. -/
def Dataset.batch (samples : List α) (batch_size : Int) : Except String (List (List α)) :=
  if batch_size ≤ 0 then .error "batch size must be greater than 0"
  else .ok (batchChunks batch_size.toNat samples)

/-- `StreamDataset.batch` (datasets.py lines 115-136): on a non-positive
batch size the generator raises ValueError before yielding any batch;
otherwise it fills and yields groups of up to `batch_size` samples from
the stream until exhaustion, never yielding an empty batch. -/
def StreamDataset.batch (stream : List α) (batch_size : Int) : Except String (List (List α)) :=
  if batch_size ≤ 0 then .error "batch size must be greater than 0"
  else .ok (batchChunks batch_size.toNat stream)

/-! ### Helper lemmas -/

theorem lookupIdx_eq_none {tok : String} :
    ∀ {l : List String}, tok ∉ l → lookupIdx tok l = none := by
  intro l
  induction l with
  | nil => intro _; rfl
  | cons t ts ih =>
    intro h
    simp only [List.mem_cons, not_or] at h
    have hne : t ≠ tok := fun e => h.1 e.symm
    simp [lookupIdx, hne, ih h.2]

/-- The default per-field configuration of `from_samples`. -/
def defaultOpts : String → FieldOptions := fun _ => {}

/-- The corpus of Scenario A (spec §8; `TestFromSamples.test_ok`). -/
def scenarioASamples : List Sample :=
  [[("w", .fstr "c")], [("w", .fstr "b")], [("w", .fstr "a")],
   [("w", .fstr "b")], [("w", .fstr "c")], [("w", .fstr "c")]]

/-! ### Claims -/

/-- C1: for the Scenario A corpus with the default configuration,
`Vocab.from_samples` produces for field `w` a store whose ordered token
sequence is exactly `["<unk>", "c", "b", "a"]` (descending corpus
frequency after the unknown special, with the unknown index at 0), and on
that store `index "c"` is 1 while `index "foo"` and `index "<unk>"` are
both 0. -/
theorem c1_scenario_a_from_samples :
    (Vocab.from_samples defaultOpts scenarioASamples).lookup "w" =
      some ⟨["<unk>", "c", "b", "a"], some 0⟩ ∧
    (StringStore.mk ["<unk>", "c", "b", "a"] (some 0)).index "c" = .ok 1 ∧
    (StringStore.mk ["<unk>", "c", "b", "a"] (some 0)).index "foo" = .ok 0 ∧
    (StringStore.mk ["<unk>", "c", "b", "a"] (some 0)).index "<unk>" = .ok 0 := by
  refine ⟨by decide, by decide, by decide, by decide⟩

/-- C3: for every StringStore and token absent from its forward mapping,
`index` returns the configured unknown index when a fallback exists, and
otherwise fails with the token-not-found LookupError, whose message names
the token and states it was not found in the vocabulary. -/
theorem c3_index_absent_token (st : StringStore) (tok : String)
    (habs : ¬ st.containsTok tok) :
    (∀ u, st.unkIndex = some u → st.index tok = .ok u) ∧
    (st.unkIndex = none → st.index tok = .error (.tokenNotFound tok)) ∧
    (LookupError.tokenNotFound tok).message =
      "\x27" ++ tok ++ "\x27 not found in vocabulary" := by
  have hnone : lookupIdx tok st.itos = none := lookupIdx_eq_none habs
  refine ⟨?_, ?_, rfl⟩
  · intro u hu
    simp [StringStore.index, hnone, hu]
  · intro hu
    simp [StringStore.index, hnone, hu]

theorem c3_index_absent_token_witness :
    (StringStore.mk ["a"] (some 0)).index "foo" = .ok 0 ∧
    (StringStore.mk ["a"] none).index "foo" = .error (.tokenNotFound "foo") :=
  ⟨(c3_index_absent_token ⟨["a"], some 0⟩ "foo" (by decide)).1 0 rfl,
   (c3_index_absent_token ⟨["a"], none⟩ "foo" (by decide)).2.1 rfl⟩

/-- C8: for every non-positive batch size, both `Dataset.batch` and
`StreamDataset.batch` fail with the invalid-argument error stating the
batch size must be greater than 0, yielding no batch. -/
theorem c8_nonpositive_batch_size {α : Type} (samples stream : List α)
    (batch_size : Int) (h : batch_size ≤ 0) :
    Dataset.batch samples batch_size = .error "batch size must be greater than 0" ∧
    StreamDataset.batch stream batch_size = .error "batch size must be greater than 0" := by
  constructor
  · simp [Dataset.batch, h]
  · simp [StreamDataset.batch, h]

theorem c8_nonpositive_batch_size_witness :
    Dataset.batch [1, 2, 3] 0 = .error "batch size must be greater than 0" ∧
    StreamDataset.batch [1, 2, 3] 0 = .error "batch size must be greater than 0" :=
  c8_nonpositive_batch_size [1, 2, 3] [1, 2, 3] 0 (by decide)

/-- C9: constructing a Dataset from an argument that is not a sequence, or
a StreamDataset from an argument that is not iterable, fails with the
malformed-input type error; no dataset value is produced. -/
theorem c9_init_type_error {α : Type} (inp : PyObj α) :
    (inp.isSequence = false →
      Dataset.init inp = .error "\x22samples\x22 is not a sequence") ∧
    (inp.isIterable = false →
      StreamDataset.init inp = .error "\x22stream\x22 is not iterable") := by
  cases inp <;>
    simp [PyObj.isSequence, PyObj.isIterable, Dataset.init, StreamDataset.init]

theorem c9_init_type_error_witness :
    Dataset.init (PyObj.otherObj : PyObj Nat) = .error "\x22samples\x22 is not a sequence" ∧
    StreamDataset.init (PyObj.otherObj : PyObj Nat) = .error "\x22stream\x22 is not iterable" :=
  ⟨(c9_init_type_error (PyObj.otherObj : PyObj Nat)).1 rfl,
   (c9_init_type_error (PyObj.otherObj : PyObj Nat)).2 rfl⟩

theorem batchChunks_flatten {α : Type} (k : Nat) (hk : 0 < k) (l : List α) :
    (batchChunks k l).flatten = l := by
  induction l using batchChunks.induct k with
  | case1 l h =>
    rw [batchChunks, if_pos h]
    simp only [List.isEmpty_eq_true, List.take_eq_nil_iff] at h
    rcases h with h | h
    · omega
    · simp [h]
  | case2 l h ih =>
    rw [batchChunks, if_neg h]
    simp only [List.flatten_cons, ih]
    exact List.take_append_drop k l

theorem batchChunks_mem {α : Type} (k : Nat) (l : List α) :
    ∀ b ∈ batchChunks k l, b ≠ [] ∧ b.length ≤ k := by
  induction l using batchChunks.induct k with
  | case1 l h =>
    rw [batchChunks, if_pos h]
    intro b hb
    cases hb
  | case2 l h ih =>
    rw [batchChunks, if_neg h]
    intro b hb
    rcases List.mem_cons.mp hb with rfl | hb
    · refine ⟨?_, List.length_take_le k l⟩
      intro hnil
      exact h (by simp [hnil])
    · exact ih b hb

theorem batchChunks_nil_of_nil {α : Type} (k : Nat) :
    batchChunks k ([] : List α) = [] := by
  rw [batchChunks]
  simp

theorem batchChunks_dropLast {α : Type} (k : Nat) (l : List α) :
    ∀ b ∈ (batchChunks k l).dropLast, b.length = k := by
  induction l using batchChunks.induct k with
  | case1 l h =>
    rw [batchChunks, if_pos h]
    intro b hb
    cases hb
  | case2 l h ih =>
    rw [batchChunks, if_neg h]
    intro b hb
    cases hrest : batchChunks k (l.drop k) with
    | nil =>
      rw [hrest, List.dropLast_single] at hb
      cases hb
    | cons c cs =>
      rw [hrest, List.dropLast_cons₂] at hb
      rcases List.mem_cons.mp hb with rfl | hb'
      · have hdrop : l.drop k ≠ [] := by
          intro hd
          rw [hd, batchChunks_nil_of_nil] at hrest
          cases hrest
        have hlt : k < l.length := by
          rcases Nat.lt_or_ge k l.length with hlt | hge
          · exact hlt
          · exact absurd (List.drop_eq_nil_iff.mpr hge) hdrop
        rw [List.length_take]
        omega
      · have := ih b
        rw [hrest] at this
        exact this hb'

/-- C10: for every positive batch size, the batches yielded by
`Dataset.batch` and `StreamDataset.batch` coincide and partition the input
samples: their concatenation in order is the original sequence, every
batch is non-empty with at most `batch_size` samples, and every batch
except possibly the last has exactly `batch_size` samples. -/
theorem c10_batch_partition {α : Type} (samples : List α) (batch_size : Int)
    (h : 0 < batch_size) :
    ∃ batches : List (List α),
      Dataset.batch samples batch_size = .ok batches ∧
      StreamDataset.batch samples batch_size = .ok batches ∧
      batches.flatten = samples ∧
      (∀ b ∈ batches, b ≠ [] ∧ b.length ≤ batch_size.toNat) ∧
      (∀ b ∈ batches.dropLast, b.length = batch_size.toNat) := by
  have hk : 0 < batch_size.toNat := by omega
  have hng : ¬ batch_size ≤ 0 := by omega
  refine ⟨batchChunks batch_size.toNat samples, ?_, ?_,
    batchChunks_flatten _ hk _, batchChunks_mem _ _, batchChunks_dropLast _ _⟩
  · simp [Dataset.batch, hng]
  · simp [StreamDataset.batch, hng]

theorem c10_batch_partition_witness :
    ∃ batches : List (List Nat),
      Dataset.batch [1, 2, 3, 4, 5] 2 = .ok batches ∧
      StreamDataset.batch [1, 2, 3, 4, 5] 2 = .ok batches ∧
      batches.flatten = [1, 2, 3, 4, 5] ∧
      (∀ b ∈ batches, b ≠ [] ∧ b.length ≤ (2 : Int).toNat) ∧
      (∀ b ∈ batches.dropLast, b.length = (2 : Int).toNat) :=
  c10_batch_partition [1, 2, 3, 4, 5] 2 (by decide)

/-- C6: with `max_size = k`, the built store consists of the specials
followed by a retained token list whose length is exactly
`min k (number of distinct tokens meeting min_count)`, every retained
token is a surviving token, and every surviving token left out has corpus
frequency at most that of every retained token (the retained tokens are
the `k` highest-frequency ones). -/
theorem c6_max_size (o : FieldOptions) (d : Nat) (toks : List String) (k : Nat)
    (hk : o.max_size = some k) :
    (buildStore o d toks).itos = specialTokens o d ++ sizedTokens o toks ∧
    (sizedTokens o toks).length = min k (keptTokens o toks).length ∧
    (∀ t ∈ sizedTokens o toks, t ∈ keptTokens o toks) ∧
    (∀ t ∈ sizedTokens o toks, ∀ u ∈ keptTokens o toks,
      u ∉ sizedTokens o toks → countTok toks u ≤ countTok toks t) := by
  have hsz : sizedTokens o toks
      = (List.insertionSort (byFreq toks) (keptTokens o toks)).take k := by
    unfold sizedTokens
    rw [hk]
  refine ⟨rfl, ?_, ?_, ?_⟩
  · rw [hsz, List.length_take, List.length_insertionSort]
  · intro t ht
    rw [hsz] at ht
    exact (List.mem_insertionSort (byFreq toks)).mp (List.mem_of_mem_take ht)
  · intro t ht u hu hnu
    rw [hsz] at ht hnu
    have husort : u ∈ List.insertionSort (byFreq toks) (keptTokens o toks) :=
      (List.mem_insertionSort (byFreq toks)).mpr hu
    have hsplit : u ∈ (List.insertionSort (byFreq toks) (keptTokens o toks)).take k ++
        (List.insertionSort (byFreq toks) (keptTokens o toks)).drop k := by
      rw [List.take_append_drop]
      exact husort
    have hudrop : u ∈ (List.insertionSort (byFreq toks) (keptTokens o toks)).drop k := by
      rcases List.mem_append.mp hsplit with h1 | h2
      · exact absurd h1 hnu
      · exact h2
    have hpair : List.Pairwise (byFreq toks)
        ((List.insertionSort (byFreq toks) (keptTokens o toks)).take k ++
          (List.insertionSort (byFreq toks) (keptTokens o toks)).drop k) := by
      rw [List.take_append_drop]
      exact List.sorted_insertionSort (byFreq toks) (keptTokens o toks)
    exact (List.pairwise_append.mp hpair).2.2 t ht u hudrop

/-- The per-field configuration of `TestFromSamples.test_max_size`. -/
def maxSizeOneOpts : FieldOptions := { max_size := some 1 }

theorem c6_max_size_witness :
    (buildStore maxSizeOneOpts 0 ["c", "b", "a", "b", "c", "c"]).itos =
      specialTokens maxSizeOneOpts 0 ++
        sizedTokens maxSizeOneOpts ["c", "b", "a", "b", "c", "c"] ∧
    (sizedTokens maxSizeOneOpts ["c", "b", "a", "b", "c", "c"]).length =
      min 1 (keptTokens maxSizeOneOpts ["c", "b", "a", "b", "c", "c"]).length ∧
    (∀ t ∈ sizedTokens maxSizeOneOpts ["c", "b", "a", "b", "c", "c"],
      t ∈ keptTokens maxSizeOneOpts ["c", "b", "a", "b", "c", "c"]) ∧
    (∀ t ∈ sizedTokens maxSizeOneOpts ["c", "b", "a", "b", "c", "c"],
      ∀ u ∈ keptTokens maxSizeOneOpts ["c", "b", "a", "b", "c", "c"],
        u ∉ sizedTokens maxSizeOneOpts ["c", "b", "a", "b", "c", "c"] →
          countTok ["c", "b", "a", "b", "c", "c"] u ≤
            countTok ["c", "b", "a", "b", "c", "c"] t) :=
  c6_max_size maxSizeOneOpts 0 ["c", "b", "a", "b", "c", "c"] 1 rfl

theorem mem_dedupFirstAux {x : String} :
    ∀ {l seen : List String}, x ∈ dedupFirstAux seen l ↔ x ∈ l ∧ x ∉ seen := by
  intro l
  induction l with
  | nil => intro seen; simp [dedupFirstAux]
  | cons t ts ih =>
    intro seen
    by_cases h : t ∈ seen
    · rw [dedupFirstAux, if_pos h, ih]
      simp only [List.mem_cons]
      constructor
      · rintro ⟨h1, h2⟩
        exact ⟨Or.inr h1, h2⟩
      · rintro ⟨h1 | h1, h2⟩
        · exact absurd (h1 ▸ h) h2
        · exact ⟨h1, h2⟩
    · rw [dedupFirstAux, if_neg h]
      simp only [List.mem_cons, ih, not_or]
      constructor
      · rintro (rfl | ⟨h1, h2, h3⟩)
        · exact ⟨Or.inl rfl, h⟩
        · exact ⟨Or.inr h1, h3⟩
      · rintro ⟨rfl | h1, h2⟩
        · exact Or.inl rfl
        · by_cases hxt : x = t
          · exact Or.inl hxt
          · exact Or.inr ⟨h1, hxt, h2⟩

theorem mem_dedupFirst {x : String} {l : List String} :
    x ∈ dedupFirst l ↔ x ∈ l := by
  unfold dedupFirst
  rw [mem_dedupFirstAux]
  simp

theorem from_samples_keys (opts : String → FieldOptions) (samples : List Sample) :
    (Vocab.from_samples opts samples).keys =
      (fieldOrder samples).filter (fun n => !(collectedTokens samples n).isEmpty) := by
  unfold Vocab.keys Vocab.from_samples
  rw [List.map_map]
  simp [Function.comp_def]

theorem mem_fieldOrder_of_collected {samples : List Sample} {name : String}
    (h : collectedTokens samples name ≠ []) : name ∈ fieldOrder samples := by
  rcases List.exists_mem_of_ne_nil _ h with ⟨x, hx⟩
  unfold collectedTokens at hx
  rcases List.mem_flatten.mp hx with ⟨L, hL, hxL⟩
  rcases List.mem_map.mp hL with ⟨s, hs, rfl⟩
  rcases List.mem_flatten.mp hxL with ⟨M, hM, hxM⟩
  rcases List.mem_map.mp hM with ⟨nv, hnv, rfl⟩
  by_cases hn : nv.1 = name
  · rw [if_pos hn] at hxM
    cases he : eligibleLeaves nv.2 with
    | none =>
      rw [he] at hxM
      cases hxM
    | some p =>
      unfold fieldOrder
      rw [mem_dedupFirst]
      apply List.mem_flatten.mpr
      refine ⟨_, List.mem_map.mpr ⟨s, hs, rfl⟩, ?_⟩
      apply List.mem_map.mpr
      refine ⟨nv, List.mem_filter.mpr ⟨hnv, ?_⟩, hn⟩
      rw [he]
      rfl
  · rw [if_neg hn] at hxM
    cases hxM

/-- C5: a field name is a key of the Vocab built by `from_samples` exactly
when at least one token was collected for it during the scan; looking up
any other field name fails with the field-vocabulary-absent LookupError,
whose message states no vocabulary exists for that field name, with
wording distinct from the token-not-found message. -/
theorem c5_field_presence (opts : String → FieldOptions) (samples : List Sample)
    (name : String) :
    (name ∈ (Vocab.from_samples opts samples).keys ↔
      collectedTokens samples name ≠ []) ∧
    (name ∉ (Vocab.from_samples opts samples).keys →
      (Vocab.from_samples opts samples).getStore name =
        .error (.fieldVocabAbsent name)) ∧
    (LookupError.fieldVocabAbsent name).message =
      "no vocabulary found for field name \x27" ++ name ++ "\x27" ∧
    (LookupError.fieldVocabAbsent name).message ≠
      (LookupError.tokenNotFound name).message := by
  refine ⟨?_, ?_, rfl, ?_⟩
  · rw [from_samples_keys]
    constructor
    · intro hmem
      have := (List.mem_filter.mp hmem).2
      simpa [List.isEmpty_eq_true] using this
    · intro hne
      exact List.mem_filter.mpr ⟨mem_fieldOrder_of_collected hne,
        by simpa [List.isEmpty_eq_true] using hne⟩
  · intro hnk
    unfold Vocab.getStore
    have hfind : (Vocab.from_samples opts samples).fields.find?
        (fun e => e.1 = name) = none := by
      apply List.find?_eq_none.mpr
      intro e he
      simp only [decide_eq_true_eq]
      intro heq
      exact hnk (heq ▸ List.mem_map.mpr ⟨e, he, rfl⟩)
    rw [hfind]
  · intro h
    have hlen := congrArg String.length h
    simp only [LookupError.message, String.length_append] at hlen
    have e1 : ("no vocabulary found for field name \x27" : String).length = 36 := rfl
    have e2 : ("\x27" : String).length = 1 := rfl
    have e3 : ("\x27 not found in vocabulary" : String).length = 25 := rfl
    rw [e1, e2, e3] at hlen
    omega

/-- The corpus of `TestFromSamples.test_no_vocab_for_non_str`. -/
def nonStrSamples : List Sample := [[("i", .fnum 10)], [("i", .fnum 20)]]

theorem c5_field_presence_witness :
    "i" ∉ (Vocab.from_samples defaultOpts nonStrSamples).keys ∧
    (Vocab.from_samples defaultOpts nonStrSamples).getStore "i" =
      .error (.fieldVocabAbsent "i") := by
  have h := c5_field_presence defaultOpts nonStrSamples "i"
  have hni : "i" ∉ (Vocab.from_samples defaultOpts nonStrSamples).keys := by decide
  exact ⟨hni, h.2.1 hni⟩

theorem mapExcept_ok_forall₂ {α β ε : Type} {f : α → Except ε β} :
    ∀ {xs : List α} {ys : List β}, mapExcept f xs = .ok ys →
      List.Forall₂ (fun x y => f x = .ok y) xs ys := by
  intro xs
  induction xs with
  | nil =>
    intro ys h
    cases h
    exact List.Forall₂.nil
  | cons x xs ih =>
    intro ys h
    unfold mapExcept at h
    cases hf : f x with
    | error e =>
      rw [hf] at h
      cases h
    | ok y =>
      rw [hf] at h
      cases hrest : mapExcept f xs with
      | error e =>
        rw [hrest] at h
        cases h
      | ok ys' =>
        rw [hrest] at h
        cases h
        exact List.Forall₂.cons hf (ih hrest)

theorem indexLeaf_ok {st : StringStore} {x : String} {i : Nat}
    (h : indexLeaf st x = .ok i) : st.index x = .ok i := by
  unfold indexLeaf at h
  cases hx : st.index x with
  | ok j =>
    rw [hx] at h
    cases h
    rfl
  | error e =>
    rw [hx] at h
    cases h

/-- Modelled from the spec: the relation "output value encodes input value
under a store" (spec §4.4): every leaf string is replaced by its integer
code via the store's `index` lookup, the nesting structure is preserved
exactly (elementwise correspondence at each level), and values without
leaf strings are unchanged. -/
inductive EncodesValue (st : StringStore) : FieldValue → FieldValue → Prop where
  | str {x : String} {i : Nat} :
      st.index x = .ok i → EncodesValue st (.fstr x) (.fix i)
  | seq {xs : List String} {is : List Nat} :
      List.Forall₂ (fun x i => st.index x = Except.ok i) xs is →
      EncodesValue st (.fseq xs) (.fixseq is)
  | seq2 {xss : List (List String)} {iss : List (List Nat)} :
      List.Forall₂ (List.Forall₂ (fun x i => st.index x = Except.ok i)) xss iss →
      EncodesValue st (.fseq2 xss) (.fixseq2 iss)
  | num {n : Int} : EncodesValue st (.fnum n) (.fnum n)
  | ix {i : Nat} : EncodesValue st (.fix i) (.fix i)
  | ixseq {l : List Nat} : EncodesValue st (.fixseq l) (.fixseq l)
  | ixseq2 {l : List (List Nat)} : EncodesValue st (.fixseq2 l) (.fixseq2 l)

/-- Modelled from the spec: the shape guarantee of `apply_to` (spec §4.4)
between an input sample and a successfully produced output sample:
fieldwise in order, names agree (same field set, same key order); a field
with a Vocab entry is encoded under its store; a field without one passes
through unchanged. -/
def SampleEncoded (v : Vocab) : Sample → Sample → Prop :=
  List.Forall₂ (fun nv mw => mw.1 = nv.1 ∧
    match v.lookup nv.1 with
    | none => mw.2 = nv.2
    | some st => EncodesValue st nv.2 mw.2)

theorem applyValue_ok {st : StringStore} :
    ∀ {val w : FieldValue}, applyValue st val = .ok w → EncodesValue st val w := by
  intro val w h
  cases val with
  | fstr s =>
    unfold applyValue at h
    dsimp only at h
    cases hx : indexLeaf st s with
    | error e =>
      rw [hx] at h
      cases h
    | ok i =>
      rw [hx] at h
      cases h
      exact .str (indexLeaf_ok hx)
  | fseq ss =>
    unfold applyValue at h
    dsimp only at h
    cases hm : mapExcept (indexLeaf st) ss with
    | error e =>
      rw [hm] at h
      cases h
    | ok is =>
      rw [hm] at h
      cases h
      exact .seq ((mapExcept_ok_forall₂ hm).imp (fun a b hab => indexLeaf_ok hab))
  | fseq2 sss =>
    unfold applyValue at h
    dsimp only at h
    cases hm : mapExcept (mapExcept (indexLeaf st)) sss with
    | error e =>
      rw [hm] at h
      cases h
    | ok iss =>
      rw [hm] at h
      cases h
      refine .seq2 ((mapExcept_ok_forall₂ hm).imp ?_)
      intro xs is hxs
      exact (mapExcept_ok_forall₂ hxs).imp (fun a b hab => indexLeaf_ok hab)
  | fnum n =>
    cases h
    exact .num
  | fix i =>
    cases h
    exact .ix
  | fixseq l =>
    cases h
    exact .ixseq
  | fixseq2 l =>
    cases h
    exact .ixseq2

theorem apply_to_sample_ok {v : Vocab} {s t : Sample}
    (h : v.apply_to_sample s = .ok t) : SampleEncoded v s t := by
  unfold Vocab.apply_to_sample at h
  refine (mapExcept_ok_forall₂ h).imp ?_
  intro nv mw hnm
  cases hlk : v.lookup nv.1 with
  | none =>
    rw [hlk] at hnm
    dsimp only at hnm
    cases hnm
    refine ⟨rfl, ?_⟩
    dsimp only
  | some st =>
    rw [hlk] at hnm
    dsimp only at hnm
    cases happ : applyValue st nv.2 with
    | error e =>
      rw [happ] at hnm
      cases hnm
    | ok w =>
      rw [happ] at hnm
      cases hnm
      refine ⟨rfl, ?_⟩
      dsimp only
      exact applyValue_ok happ

theorem sampleEncoded_keys {v : Vocab} :
    ∀ {s t : Sample}, SampleEncoded v s t → t.map Prod.fst = s.map Prod.fst := by
  intro s t he
  induction he with
  | nil => rfl
  | cons hab _ ih => simp [ih, hab.1]

/-- C2: `apply_to` yields exactly one output per input sample, and every
successfully produced output sample has the same field names in the same
order as its input, with every field having a Vocab entry encoded under
that field's store (leaf strings replaced by their codes, structure
preserved) and every other field unchanged. -/
theorem c2_apply_to_shape (v : Vocab) (samples : List Sample) :
    v.apply_to samples = samples.map v.apply_to_sample ∧
    (v.apply_to samples).length = samples.length ∧
    (∀ s t : Sample, v.apply_to_sample s = .ok t →
      t.map Prod.fst = s.map Prod.fst) ∧
    (∀ s t : Sample, v.apply_to_sample s = .ok t → SampleEncoded v s t) := by
  exact ⟨rfl, by simp [Vocab.apply_to],
    fun s t h => sampleEncoded_keys (apply_to_sample_ok h),
    fun s t h => apply_to_sample_ok h⟩

/-- The Vocab of `test_apply_to_samples`: field `ws` mapped by the store
built from the explicit token sequence `"abc"`. -/
def applyVocabD : Vocab := ⟨[("ws", ⟨["a", "b", "c"], none⟩)]⟩

/-- The first sample of `test_apply_to_samples` (Scenario D). -/
def applySampleD : Sample := [("ws", .fseq ["a", "c", "c"]), ("i", .fnum 1)]

/-- The expected output for `applySampleD` (Scenario D). -/
def applyOutD : Sample := [("ws", .fixseq [0, 2, 2]), ("i", .fnum 1)]

theorem c2_apply_to_shape_witness :
    applyVocabD.apply_to_sample applySampleD = .ok applyOutD ∧
    SampleEncoded applyVocabD applySampleD applyOutD :=
  ⟨rfl, (c2_apply_to_shape applyVocabD [applySampleD]).2.2.2 applySampleD applyOutD rfl⟩

/-- Whether the first character list is a prefix of the second. -/
def listStartsWith : List Char → List Char → Bool
  | [], _ => true
  | _ :: _, [] => false
  | a :: as, b :: bs => a = b && listStartsWith as bs

/-- Whether the first character list occurs contiguously anywhere inside
the second. -/
def listOccursIn (pat : List Char) : List Char → Bool
  | [] => listStartsWith pat []
  | b :: bs => listStartsWith pat (b :: bs) || listOccursIn pat bs

/-- C4: when `apply_to` reaches a leaf string absent from the field's
store and that store has no unknown fallback, the offending sample's
result is the value-not-found LookupError naming the value; its message
differs from the StringStore-level token-not-found message, and (at the
Scenario E value) the lower-level message does not occur inside it. -/
theorem c4_value_not_found (v : Vocab) (name tok : String) (st : StringStore)
    (hlk : v.lookup name = some st) (hunk : st.unkIndex = none)
    (habs : ¬ st.containsTok tok) :
    v.apply_to [[(name, .fseq [tok])]] = [.error (.valueNotFound tok)] ∧
    (LookupError.valueNotFound tok).message =
      "value \x27" ++ tok ++ "\x27 not found in vocab" ∧
    (LookupError.valueNotFound tok).message ≠
      (LookupError.tokenNotFound tok).message ∧
    listOccursIn ((LookupError.tokenNotFound "a").message).toList
      ((LookupError.valueNotFound "a").message).toList = false := by
  have hidx : st.index tok = .error (.tokenNotFound tok) := by
    unfold StringStore.index
    rw [lookupIdx_eq_none habs, hunk]
  have hleaf : indexLeaf st tok = .error (.valueNotFound tok) := by
    unfold indexLeaf
    rw [hidx]
  have happly : applyValue st (.fseq [tok]) = .error (.valueNotFound tok) := by
    unfold applyValue mapExcept
    dsimp only
    rw [hleaf]
  have hsample : Vocab.apply_to_sample v [(name, .fseq [tok])] =
      .error (.valueNotFound tok) := by
    unfold Vocab.apply_to_sample mapExcept
    dsimp only
    rw [hlk]
    dsimp only
    rw [happly]
  refine ⟨?_, rfl, ?_, by decide⟩
  · unfold Vocab.apply_to
    rw [List.map_cons, List.map_nil, hsample]
  · intro h
    have hlen := congrArg String.length h
    simp only [LookupError.message, String.length_append] at hlen
    have e1 : ("value \x27" : String).length = 7 := rfl
    have e2 : ("\x27 not found in vocab" : String).length = 20 := rfl
    have e3 : ("\x27" : String).length = 1 := rfl
    have e4 : ("\x27 not found in vocabulary" : String).length = 25 := rfl
    rw [e1, e2, e3, e4] at hlen
    omega

/-- The Vocab of `test_apply_to_value_not_found` (Scenario E): field `ws`
mapped by a store containing only `"b"`, with no unknown fallback. -/
def scenarioEVocab : Vocab := ⟨[("ws", ⟨["b"], none⟩)]⟩

theorem c4_value_not_found_witness :
    scenarioEVocab.apply_to [[("ws", .fseq ["a"])]] =
      [.error (.valueNotFound "a")] ∧
    (LookupError.valueNotFound "a").message = "value \x27a\x27 not found in vocab" := by
  have h := c4_value_not_found scenarioEVocab "ws" "a" ⟨["b"], none⟩ rfl rfl (by decide)
  exact ⟨h.1, h.2.1⟩

/-- The pad-disabled per-field configuration. -/
def padDisabledOpts : String → FieldOptions := fun _ => { pad := none }

/-- C7 counterexample: over the one-sample corpus with the depth-0 field
`w`, the default configuration and the pad-disabled configuration are
different special-token configurations over the same token multiset, yet
`from_samples` builds Vocabs that are equal (the padding special applies
only to fields of depth ≥ 1, so the configurations are
indistinguishable), refuting "never equal". -/
theorem c7_counterexample :
    (defaultOpts "w").pad ≠ (padDisabledOpts "w").pad ∧
    (Vocab.from_samples defaultOpts [[("w", .fstr "a")]]).vocabEq
      (Vocab.from_samples padDisabledOpts [[("w", .fstr "a")]]) ∧
    Vocab.from_samples defaultOpts [[("w", .fstr "a")]] =
      Vocab.from_samples padDisabledOpts [[("w", .fstr "a")]] :=
  ⟨by decide, by decide, by decide⟩

theorem sizedTokens_congr {o1 o2 : FieldOptions} (toks : List String)
    (hmin : o1.min_count = o2.min_count) (hmax : o1.max_size = o2.max_size) :
    sizedTokens o1 toks = sizedTokens o2 toks := by
  unfold sizedTokens keptTokens
  rw [hmin, hmax]

/-- C7 amended: two Vocabs built by `from_samples` over the same corpus,
the first with `unk` enabled and the second with both `pad` and `unk`
disabled for every field (`min_count` and `max_size` agreeing), are never
equal as long as the first Vocab has at least one field; configurations
differing only in specials that are never injected (e.g. `pad` on a
depth-0 field) can still produce equal Vocabs. -/
theorem c7_amended (opts1 opts2 : String → FieldOptions) (samples : List Sample)
    (hcfg : ∀ n, (opts1 n).unk.isSome ∧ (opts2 n).unk = none ∧ (opts2 n).pad = none ∧
      (opts1 n).min_count = (opts2 n).min_count ∧
      (opts1 n).max_size = (opts2 n).max_size)
    (hne : (Vocab.from_samples opts1 samples).fields ≠ []) :
    ¬ (Vocab.from_samples opts1 samples).vocabEq
      (Vocab.from_samples opts2 samples) := by
  intro heq
  unfold Vocab.vocabEq at heq
  unfold Vocab.from_samples at heq hne
  cases hn : (fieldOrder samples).filter
      (fun n => !(collectedTokens samples n).isEmpty) with
  | nil =>
    rw [hn] at hne
    exact hne rfl
  | cons n0 rest =>
    rw [hn] at heq
    simp only [List.map_cons] at heq
    injection heq with hhead _
    injection hhead with _ hitos
    obtain ⟨hunk1, hunk2, hpad2, hmin, hmax⟩ := hcfg n0
    have hspec2 : specialTokens (opts2 n0) (fieldDepth samples n0) = [] := by
      unfold specialTokens
      rw [hunk2, hpad2]
      simp
    have hsz := sizedTokens_congr (collectedTokens samples n0) hmin hmax
    simp only [buildStore] at hitos
    rw [hspec2, ← hsz, List.nil_append] at hitos
    have hlen := congrArg List.length hitos
    rw [List.length_append] at hlen
    have h1 : 1 ≤ (specialTokens (opts1 n0) (fieldDepth samples n0)).length := by
      unfold specialTokens
      rw [List.length_append]
      cases ho : (opts1 n0).unk with
      | none =>
        rw [ho] at hunk1
        cases hunk1
      | some u => simp
    omega

/-- The corpus of `test_eq_not_same`. -/
def eqTestSamples : List Sample :=
  [[("ws", .fseq ["b", "c"])], [("ws", .fseq ["c", "c", "b"])]]

/-- The all-specials-disabled per-field configuration. -/
def noSpecialsOpts : String → FieldOptions := fun _ => { unk := none, pad := none }

theorem c7_amended_witness :
    ¬ (Vocab.from_samples defaultOpts eqTestSamples).vocabEq
      (Vocab.from_samples noSpecialsOpts eqTestSamples) :=
  c7_amended defaultOpts noSpecialsOpts eqTestSamples
    (fun _ => ⟨rfl, rfl, rfl, rfl, rfl⟩) (by decide)

end Text2Array
